import Mathlib

/-!
Shallow embedding of the acme-redirect daemon (src/daemon.rs, src/config.rs).

HTTP handlers are modelled as pure functions from a request model to a
response model; filesystem reads performed by a handler are made explicit
as a trace of paths.  The daemon bootstrap sequence is modelled as a
function from an environment of step outcomes to the trace of completed
steps.  Config loading is modelled over an environment containing the
parse results of the main file and of the certificate directory entries.
-/

namespace AcmeRedirect

/-- An HTTP response: status code, response headers, body.  Bodies are
modelled as strings (challenge proofs are raw bytes in the code; the byte
content is opaque to every property considered here). -/
structure HttpResponse where
  status : Nat
  headers : List (String × String)
  body : String
deriving DecidableEq, Repr

/-- Modelled from the spec: the fixed bad-request body from the
http-responses module (not under src/); only its fixedness matters. -/
def BAD_REQUEST : String := "bad request"

/-- Modelled from the spec: the fixed not-found body from the
http-responses module (not under src/). -/
def NOT_FOUND : String := "not found"

/-- Modelled from the spec: the fixed informational redirect body from the
http-responses module (not under src/). -/
def REDIRECT : String := "this resource moved permanently to https"

/-- daemon.rs bad_request: 400 response with the fixed body. -/
def bad_request : HttpResponse := ⟨400, [], BAD_REQUEST⟩

/-- daemon.rs not_found: 404 response with the fixed body. -/
def not_found : HttpResponse := ⟨404, [], NOT_FOUND⟩

/-- Request model for the redirect handler.  hostHeader models
req.headers().get("Host"): the outer Option is presence of the header and
the inner Option is whether host.to_str() succeeds (the header value is
valid text).  uri models req.uri(), the original path-and-query as
displayed by format!. -/
structure HttpRequest where
  hostHeader : Option (Option String)
  uri : String
deriving DecidableEq, Repr

/-- daemon.rs get_host: Some(host) iff the Host header is present and is
valid text. -/
def get_host (req : HttpRequest) : Option String :=
  match req.hostHeader with
  | some (some host) => some host
  | some none => none
  | none => none

/-- daemon.rs redirect handler: 400 on missing/invalid Host; build
url = "https://" + host + path; 400 if url contains CR or LF; otherwise
301 with a Location header set to url. -/
def redirect (req : HttpRequest) : HttpResponse :=
  match get_host req with
  | none => bad_request
  | some host =>
    let url := "https://" ++ host ++ req.uri
    if url.toList.any (fun c => c == '\n' || c == '\r') then
      bad_request
    else
      ⟨301, [("Location", url)], REDIRECT⟩

/-- Modelled from the spec: the character allow-list of the token-syntax
predicate in the chall module (not under src/): ACME HTTP-01 tokens use
base64url characters (letters, digits, dash, underscore). -/
def isTokenChar (c : Char) : Bool :=
  c.isAlphanum || c == '-' || c == '_'

/-- Modelled from the spec: chall::valid_token (not under src/): accepts
only a non-empty string of bounded length over the allow-listed character
set. -/
def valid_token (s : String) : Bool :=
  decide (0 < s.length) && decide (s.length ≤ 128) && s.toList.all isTokenChar

/-- Path::new(base).join(child) for string paths: an absolute child
replaces the base, otherwise the paths are joined with a separator. -/
def pathJoin (base child : String) : String :=
  if child.toList.head? = some '/' then child else base ++ "/" ++ child

/-- daemon.rs acme handler, with the filesystem passed explicitly as a
partial map from paths to file contents.  Returns the response together
with the trace of paths read from the filesystem: 400 and no read for an
invalid token; otherwise a single read of "challs" joined with the token,
answered 200 with the file's bytes on success and 404 on failure. -/
def acme (token : String) (fsys : String → Option String) :
    HttpResponse × List String :=
  if !(valid_token token) then
    (bad_request, [])
  else
    let path := pathJoin "challs" token
    match fsys path with
    | some proof => (⟨200, [], proof⟩, [path])
    | none => (not_found, [path])

/-- A string contains a CR or LF character. -/
def containsCRLF (s : String) : Bool :=
  s.toList.any (fun c => c == '\n' || c == '\r')

/-! ## Daemon bootstrap (daemon.rs run) -/

/-- The observable milestones of the bootstrap sequence in daemon.rs run:
setup returned Ok, set_current_dir returned Ok, TcpListener::bind returned
Ok, sandbox::init returned Ok (privileges dropped), and spawn entered (the
server starts accepting connections). -/
inductive DaemonEvent
  | setupDone
  | chdirDone
  | socketBound
  | privsDropped
  | serving
deriving DecidableEq, Repr

/-- Outcomes of the fallible steps of daemon.rs run.  setup, chdir and
bind are filesystem/network operations; dropOk models sandbox::init (not
under src/, an opaque all-or-nothing privilege drop per the spec). -/
structure DaemonEnv where
  setupOk : Bool
  chdirOk : Bool
  bindOk : Bool
  dropOk : Bool
deriving DecidableEq, Repr

/-- daemon.rs run as a trace of completed milestones: each step runs only
if every earlier step succeeded (the ? operator returns early on the first
failure), and spawn — serving — is reached only after sandbox::init
succeeded. -/
def run (env : DaemonEnv) : List DaemonEvent :=
  if env.setupOk then
    if env.chdirOk then
      if env.bindOk then
        if env.dropOk then
          [DaemonEvent.setupDone, DaemonEvent.chdirDone,
           DaemonEvent.socketBound, DaemonEvent.privsDropped,
           DaemonEvent.serving]
        else
          [DaemonEvent.setupDone, DaemonEvent.chdirDone,
           DaemonEvent.socketBound]
      else [DaemonEvent.setupDone, DaemonEvent.chdirDone]
    else [DaemonEvent.setupDone]
  else []

/-- The full successful bootstrap trace, in order. -/
def bootSequence : List DaemonEvent :=
  [DaemonEvent.setupDone, DaemonEvent.chdirDone, DaemonEvent.socketBound,
   DaemonEvent.privsDropped, DaemonEvent.serving]

/-! ## Privileged setup (daemon.rs setup) -/

/-- Metadata of the data directory: permission mode bits, owning user id,
owning group id. -/
structure DirMeta where
  mode : Nat
  uid : Nat
  gid : Nat
deriving DecidableEq, Repr

/-- State of the data directory: whether it exists, and its metadata
(meaningful only when present). -/
structure DirState where
  present : Bool
  meta : DirMeta
deriving DecidableEq, Repr

/-- A filesystem change operation issued by setup. -/
inductive FsOp
  | mkdir (mode : Nat)
  | chmod (mode : Nat)
  | chown (uid : Nat)
  | chgrp (gid : Nat)
deriving DecidableEq, Repr

/-- Environment of daemon.rs setup: the optional user name from the
daemon arguments, the optional group name from the config, and the
name-resolution tables (users::get_user_by_name / get_group_by_name).
procUid/procGid are the identity a freshly created directory gets. -/
structure SetupEnv where
  userArg : Option String
  groupCfg : Option String
  resolveUser : String → Option Nat
  resolveGroup : String → Option Nat
  procUid : Nat
  procGid : Nat

/-- Effect of a filesystem operation on the directory state. -/
def applyOp (env : SetupEnv) (s : DirState) : FsOp → DirState
  | FsOp.mkdir m => ⟨true, ⟨m, env.procUid, env.procGid⟩⟩
  | FsOp.chmod m => ⟨s.present, ⟨m, s.meta.uid, s.meta.gid⟩⟩
  | FsOp.chown u => ⟨s.present, ⟨s.meta.mode, u, s.meta.gid⟩⟩
  | FsOp.chgrp g => ⟨s.present, ⟨s.meta.mode, s.meta.uid, g⟩⟩

/-- Modelled from the spec: utils::ensure_chmod (not under src/), a pure
function of current metadata and desired mode that issues a change
operation only if the current mode differs from the target. -/
def ensure_chmod (md : DirMeta) (mode : Nat) : Option FsOp :=
  if md.mode = mode then none else some (FsOp.chmod mode)

/-- Modelled from the spec: utils::ensure_chown (not under src/), issuing
a change only if current ownership differs from the resolved user. -/
def ensure_chown (md : DirMeta) (uid : Nat) : Option FsOp :=
  if md.uid = uid then none else some (FsOp.chown uid)

/-- Modelled from the spec: utils::ensure_chgrp (not under src/), issuing
a change only if current group ownership differs from the resolved
group. -/
def ensure_chgrp (md : DirMeta) (gid : Nat) : Option FsOp :=
  if md.gid = gid then none else some (FsOp.chgrp gid)

/-- The user-ownership step of setup: if args.user is present, resolve it
(failure is fatal) and enforce ownership against the metadata md read
after the mkdir step. -/
def setupChown (env : SetupEnv) (md : DirMeta) (s : DirState) :
    Except String (DirState × List FsOp) :=
  match env.userArg with
  | none => Except.ok (s, [])
  | some name =>
    match env.resolveUser name with
    | none => Except.error ("Failed to resolve user: " ++ name)
    | some uid =>
      match ensure_chown md uid with
      | none => Except.ok (s, [])
      | some op => Except.ok (applyOp env s op, [op])

/-- The group-ownership step of setup: if config.group is present, resolve
it (failure is fatal) and enforce group ownership against md. -/
def setupChgrp (env : SetupEnv) (md : DirMeta) (s : DirState) :
    Except String (DirState × List FsOp) :=
  match env.groupCfg with
  | none => Except.ok (s, [])
  | some name =>
    match env.resolveGroup name with
    | none => Except.error ("Failed to resolve group: " ++ name)
    | some gid =>
      match ensure_chgrp md gid with
      | none => Except.ok (s, [])
      | some op => Except.ok (applyOp env s op, [op])

/-- The creation step of setup: mkdir with mode 0750 only when the
directory does not exist; an existing directory is never recreated. -/
def mkdirStep (env : SetupEnv) (s0 : DirState) : DirState × List FsOp :=
  if s0.present then (s0, [])
  else (applyOp env s0 (FsOp.mkdir 0o750), [FsOp.mkdir 0o750])

/-- The permission step of setup: enforce mode 0750 against the metadata
md read after the creation step. -/
def chmodStep (env : SetupEnv) (md : DirMeta) (s : DirState) :
    DirState × List FsOp :=
  match ensure_chmod md 0o750 with
  | none => (s, [])
  | some op => (applyOp env s op, [op])

/-- daemon.rs setup: create the data directory with mode 0750 if it does
not exist; read its metadata once; enforce mode 0750, then user ownership
(if a user was given), then group ownership (if a group was configured),
each keyed on that metadata.  Returns the final directory state and the
list of change operations issued, or the fatal error. -/
def setup (env : SetupEnv) (s0 : DirState) :
    Except String (DirState × List FsOp) :=
  let mk := mkdirStep env s0
  let md := mk.1.meta
  let ch := chmodStep env md mk.1
  match setupChown env md ch.1 with
  | Except.error e => Except.error e
  | Except.ok (s3, ops3) =>
    match setupChgrp env md s3 with
    | Except.error e => Except.error e
    | Except.ok (s4, ops4) =>
      Except.ok (s4, mk.2 ++ ch.2 ++ ops3 ++ ops4)

/-- A directory state on which setup has converged for env: the directory
exists with mode 0750, and its ownership agrees with every identity the
environment asks setup to enforce. -/
def converged (env : SetupEnv) (t : DirState) : Prop :=
  t.present = true ∧ t.meta.mode = 0o750 ∧
  (∀ n, env.userArg = some n →
    ∃ uid, env.resolveUser n = some uid ∧ t.meta.uid = uid) ∧
  (∀ n, env.groupCfg = some n →
    ∃ gid, env.resolveGroup n = some gid ∧ t.meta.gid = gid)

/-! ## Config model (config.rs) -/

/-- config.rs DEFAULT_RENEW_IF_DAYS_LEFT. -/
def DEFAULT_RENEW_IF_DAYS_LEFT : Int := 30

/-- config.rs AcmeConfig: the acme section of the main config file. -/
structure AcmeConfig where
  acme_email : Option String
  acme_url : Option String
  renew_if_days_left : Option Int
deriving DecidableEq, Repr

/-- config.rs SystemConfig: the system section of the main config file. -/
structure SystemConfig where
  group : Option String
  exec : List String
  exec_extra : List String
deriving DecidableEq, Repr

/-- config.rs ConfigFile: the parsed main config file. -/
structure ConfigFile where
  acme : AcmeConfig
  system : SystemConfig
deriving DecidableEq, Repr

/-- config.rs CertConfig: one certificate's settings. -/
structure CertConfig where
  name : String
  dns_names : List String
  must_staple : Bool
  exec : List String
deriving DecidableEq, Repr

/-- config.rs CertConfigFile: a parsed per-certificate config file. -/
structure CertConfigFile where
  cert : CertConfig
deriving DecidableEq, Repr

/-- config.rs Config: the immutable runtime configuration. -/
structure Config where
  certs : List CertConfig
  acme_email : Option String
  acme_url : String
  renew_if_days_left : Int
  data_dir : String
  chall_dir : String
  group : Option String
  exec : List String
  exec_extra : List String
deriving DecidableEq, Repr

/-- The invocation surface consumed by config.rs load (args.rs is opaque
CLI parsing): paths, the optional email override, and the ACME URL. -/
structure Args where
  config : String
  config_dir : String
  acme_email : Option String
  acme_url : String
  data_dir : String
  chall_dir : String
deriving DecidableEq, Repr

/-- The final component of a path string (after the last separator). -/
def fileName (p : String) : String :=
  String.mk ((p.toList.reverse.takeWhile (fun c => c != '/')).reverse)

/-- The suffix of a character list after its last dot (the whole list if
it has no dot). -/
def afterLastDot (l : List Char) : List Char :=
  (l.reverse.takeWhile (fun c => c != '.')).reverse

/-- Rust Path::extension on a path string: none for an empty file name, a
file name with no embedded dot, or a dotfile whose only dot is the leading
one; otherwise the portion of the file name after its final dot. -/
def extension (p : String) : Option String :=
  match (fileName p).toList with
  | [] => none
  | c :: rest =>
    let core := if c = '.' then rest else c :: rest
    if core.contains '.' then some (String.mk (afterLastDot (c :: rest)))
    else none

/-- The loop body of config.rs load_from_folder over the directory
entries: entries whose extension is "conf" are parsed (a parse failure
aborts with an error naming that file); other entries are skipped. -/
def load_certs (parse : String → Except String CertConfigFile) :
    List String → Except String (List CertConfigFile)
  | [] => Except.ok []
  | p :: rest =>
    if extension p = some "conf" then
      match parse p with
      | Except.error _ => Except.error ("Failed to load config file " ++ p)
      | Except.ok c =>
        match load_certs parse rest with
        | Except.error e => Except.error e
        | Except.ok cs => Except.ok (c :: cs)
    else load_certs parse rest

/-- config.rs load_from_folder: list the directory (failure is fatal) and
run the entry loop.  dirList is the result of fs::read_dir in
directory-iteration order; parse is load_file at each path. -/
def load_from_folder (dirList : Except String (List String))
    (parse : String → Except String CertConfigFile) :
    Except String (List CertConfigFile) :=
  match dirList with
  | Except.error _ => Except.error "Failed to list directory"
  | Except.ok entries => load_certs parse entries

/-- Environment of config.rs load: the parse result of the main config
file at args.config, the directory listing of args.config_dir, and the
per-file parse results. -/
structure LoadEnv where
  mainParse : Except String ConfigFile
  dirList : Except String (List String)
  certParse : String → Except String CertConfigFile

/-- config.rs load: parse the main file (failure names the file); if the
invocation supplies an email override, overwrite the file value in the
intermediate structure; load the certificate directory; build the Config,
whose acme_email is taken from the invocation, acme_url/data_dir/chall_dir
from the invocation, renew_if_days_left from the (updated) file with
default 30, and group/exec/exec_extra from the file's system section. -/
def load (args : Args) (env : LoadEnv) : Except String Config :=
  match env.mainParse with
  | Except.error _ =>
    Except.error ("Failed to load config file " ++ args.config)
  | Except.ok config0 =>
    let config :=
      if args.acme_email.isSome then
        { config0 with acme := { config0.acme with acme_email := args.acme_email } }
      else config0
    match load_from_folder env.dirList env.certParse with
    | Except.error e => Except.error e
    | Except.ok files =>
      Except.ok
        { certs := files.map (fun f => f.cert)
          acme_email := args.acme_email
          acme_url := args.acme_url
          renew_if_days_left :=
            config.acme.renew_if_days_left.getD DEFAULT_RENEW_IF_DAYS_LEFT
          data_dir := args.data_dir
          chall_dir := args.chall_dir
          group := config.system.group
          exec := config.system.exec
          exec_extra := config.system.exec_extra }

/-- config.rs Config::filter_certs: keep the certificates whose name is a
member of the filter set, or all of them when the filter set is empty.
The HashSet argument is modelled by a list used only through is_empty and
membership. -/
def filter_certs (c : Config) (filter : List String) : List CertConfig :=
  c.certs.filter (fun cert => filter.isEmpty || filter.contains cert.name)

/-! ## Concrete fixtures used by the witness theorems -/

/-- Concrete invocation with an email override, for witnesses. -/
def argsW : Args :=
  ⟨"acme-redirect.conf", "conf.d", some "cli@example.org",
    "https://acme.example/directory", "/var/lib/acme", "/run/challs"⟩

/-- Concrete parsed main config file whose acme section supplies its own
email value, for witnesses. -/
def fileW : ConfigFile :=
  ⟨⟨some "file@example.org", none, none⟩, ⟨none, [], []⟩⟩

/-- Concrete load environment: the main file parses to fileW and the
certificate directory is empty, for witnesses. -/
def envW : LoadEnv :=
  ⟨Except.ok fileW, Except.ok [], fun _ => Except.error "unused"⟩

/-- The Config produced by load on argsW and envW. -/
def cfgW : Config :=
  ⟨[], some "cli@example.org", "https://acme.example/directory", 30,
    "/var/lib/acme", "/run/challs", none, [], []⟩

/-- Concrete invocation without an email override, for witnesses. -/
def argsN : Args :=
  ⟨"acme-redirect.conf", "conf.d", none, "https://acme.example/directory",
    "/var/lib/acme", "/run/challs"⟩

/-- The Config produced by load on argsN and envW. -/
def cfgN : Config :=
  ⟨[], none, "https://acme.example/directory", 30, "/var/lib/acme",
    "/run/challs", none, [], []⟩

/-- Concrete Config with a duplicated certificate name, for the C8
witness. -/
def cfgDup : Config :=
  ⟨[⟨"a", ["a.example"], false, []⟩, ⟨"b", ["b.example"], false, []⟩,
     ⟨"a", ["a2.example"], true, []⟩],
    none, "https://acme.example/directory", 30, "/var/lib/acme",
    "/run/challs", none, [], []⟩

/-- A concrete well-formed certificate file, for the C9 witness. -/
def certW : CertConfigFile :=
  ⟨⟨"example.com", ["example.com", "www.example.com"], false, []⟩⟩

/-- A concrete parser that fails exactly on "bad.conf", for the C9
witness. -/
def parseW : String → Except String CertConfigFile :=
  fun p =>
    if p = "bad.conf" then Except.error "syntax error" else Except.ok certW

/-- Concrete setup environment for the C10 witness: enforce user and
group 1000, with resolution succeeding. -/
def envS : SetupEnv :=
  ⟨some "acme", some "acme", fun _ => some 1000, fun _ => some 1000, 0, 0⟩

/-! ## Helper lemmas -/

/-- Evaluation of the acme handler on a token rejected by the syntax
predicate: 400 and an empty read trace. -/
theorem acme_eq_of_invalid (token : String)
    (fsys : String → Option String) (h : valid_token token = false) :
    acme token fsys = (bad_request, []) := by
  unfold acme
  simp [h]

/-- A token accepted by the syntax predicate cannot start with a path
separator, so joining it under the challenge directory is plain
concatenation. -/
theorem pathJoin_valid (token : String) (h : valid_token token = true) :
    pathJoin "challs" token = "challs" ++ "/" ++ token := by
  unfold pathJoin
  rw [if_neg]
  intro hhead
  unfold valid_token at h
  rw [Bool.and_eq_true, Bool.and_eq_true] at h
  obtain ⟨⟨-, -⟩, hall⟩ := h
  cases htl : token.toList with
  | nil => rw [htl] at hhead; exact Option.noConfusion hhead
  | cons c rest =>
    rw [htl] at hhead hall
    rw [List.head?_cons] at hhead
    injection hhead with hc
    rw [List.all_cons, Bool.and_eq_true] at hall
    rw [hc] at hall
    exact absurd hall.1 (by decide)

/-- Evaluation of the acme handler on a valid token whose proof file is
readable. -/
theorem acme_eq_of_read_ok (token : String) (fsys : String → Option String)
    (proof : String) (hv : valid_token token = true)
    (hf : fsys (pathJoin "challs" token) = some proof) :
    acme token fsys = (⟨200, [], proof⟩, [pathJoin "challs" token]) := by
  unfold acme
  simp [hv, hf]

/-- Evaluation of the acme handler on a valid token whose proof file is
not readable. -/
theorem acme_eq_of_read_fail (token : String) (fsys : String → Option String)
    (hv : valid_token token = true)
    (hf : fsys (pathJoin "challs" token) = none) :
    acme token fsys = (not_found, [pathJoin "challs" token]) := by
  unfold acme
  simp [hv, hf]

/-! ## Claim theorems -/

/-- C2: if the concatenated target "https://" + host + path contains a CR
or LF character — coming from either the Host header or the path, since
the check is on the concatenation — the redirect handler returns 400 and
no emitted response header contains the injected sequence. -/
theorem redirect_crlf_rejected (req : HttpRequest) (host : String)
    (hh : get_host req = some host)
    (hc : containsCRLF ("https://" ++ host ++ req.uri) = true) :
    redirect req = bad_request ∧
    ∀ hdr, hdr ∈ (redirect req).headers → containsCRLF hdr.2 = false := by
  have hred : redirect req = bad_request := by
    unfold redirect
    rw [hh]
    simp only [containsCRLF] at hc
    simp only [hc, if_true]
  refine ⟨hred, ?_⟩
  rw [hred]
  intro hdr hmem
  simp [bad_request] at hmem

/-- C2 witness: a Host header carrying a CRLF injection attempt is
rejected with 400 and an empty header list. -/
theorem redirect_crlf_rejected_witness :
    get_host ⟨some (some "evil\r\nSet-Cookie: x"), "/"⟩ =
      some "evil\r\nSet-Cookie: x" ∧
    containsCRLF ("https://" ++ "evil\r\nSet-Cookie: x" ++ "/") = true ∧
    redirect ⟨some (some "evil\r\nSet-Cookie: x"), "/"⟩ = bad_request :=
  ⟨rfl, by decide,
    (redirect_crlf_rejected ⟨some (some "evil\r\nSet-Cookie: x"), "/"⟩
      "evil\r\nSet-Cookie: x" rfl (by decide)).1⟩

/-- C5: a missing Host header, or one that is not valid text, yields 400
with the fixed body regardless of path; with a valid host and no CR/LF in
the concatenated target, the handler returns 301 with Location equal to
"https://" + host + path and the fixed informational body. -/
theorem redirect_responses (req : HttpRequest) :
    (req.hostHeader = none ∨ req.hostHeader = some none →
      redirect req = bad_request) ∧
    (∀ host, get_host req = some host →
      containsCRLF ("https://" ++ host ++ req.uri) = false →
      redirect req =
        ⟨301, [("Location", "https://" ++ host ++ req.uri)], REDIRECT⟩) := by
  constructor
  · intro h
    unfold redirect get_host
    rcases h with h | h <;> rw [h]
  · intro host hh hn
    unfold redirect
    rw [hh]
    simp only [containsCRLF] at hn
    simp only [hn, Bool.false_eq_true, if_false]

/-- C5 witness: a request without a Host header gets 400, and a clean
host/path pair gets 301 with the concatenated Location target. -/
theorem redirect_responses_witness :
    redirect ⟨none, "/abc"⟩ = bad_request ∧
    redirect ⟨some (some "example.com"), "/foo?x=1"⟩ =
      ⟨301, [("Location", "https://" ++ "example.com" ++ "/foo?x=1")],
        REDIRECT⟩ :=
  ⟨(redirect_responses ⟨none, "/abc"⟩).1 (Or.inl rfl),
    (redirect_responses ⟨some (some "example.com"), "/foo?x=1"⟩).2
      "example.com" rfl (by decide)⟩

/-- C3: on a token rejected by the syntax predicate the acme handler
returns 400 immediately and its filesystem read trace is empty. -/
theorem acme_invalid_token_no_fs (token : String)
    (fsys : String → Option String) (h : valid_token token = false) :
    acme token fsys = (bad_request, []) :=
  acme_eq_of_invalid token fsys h

/-- C3 witness: the empty token is invalid and is rejected without any
filesystem access even when the filesystem would answer every path. -/
theorem acme_invalid_token_no_fs_witness :
    valid_token "" = false ∧
    acme "" (fun _ => some "x") = (bad_request, []) :=
  ⟨by decide, acme_invalid_token_no_fs "" (fun _ => some "x") (by decide)⟩

/-- C4: the acme handler only ever answers 200, 400 or 404; on a token
accepted by the syntax predicate it reads exactly the file named by the
token inside the relative directory "challs", answering 200 with the
file's content exactly when the read succeeds and 404 with the fixed body
exactly when it fails. -/
theorem acme_valid_token_behavior (token : String)
    (fsys : String → Option String) :
    ((acme token fsys).1.status = 200 ∨ (acme token fsys).1.status = 400 ∨
      (acme token fsys).1.status = 404) ∧
    (valid_token token = true →
      (acme token fsys).2 = ["challs" ++ "/" ++ token] ∧
      (∀ proof, fsys ("challs" ++ "/" ++ token) = some proof →
        (acme token fsys).1 = ⟨200, [], proof⟩) ∧
      (fsys ("challs" ++ "/" ++ token) = none →
        (acme token fsys).1 = not_found)) := by
  cases hv : valid_token token with
  | false =>
    refine ⟨?_, ?_⟩
    · rw [acme_eq_of_invalid token fsys hv]
      exact Or.inr (Or.inl rfl)
    · intro h; exact Bool.noConfusion h
  | true =>
    have hp := pathJoin_valid token hv
    cases hf : fsys (pathJoin "challs" token) with
    | some proof =>
      have he := acme_eq_of_read_ok token fsys proof hv hf
      rw [hp] at he hf
      refine ⟨by rw [he]; exact Or.inl rfl, fun _ => ⟨by rw [he], ?_, ?_⟩⟩
      · intro proof2 hp2
        rw [hf] at hp2
        injection hp2 with hpe
        rw [he, hpe]
      · intro hnone
        rw [hf] at hnone
        exact Option.noConfusion hnone
    | none =>
      have he := acme_eq_of_read_fail token fsys hv hf
      rw [hp] at he hf
      refine ⟨by rw [he]; exact Or.inr (Or.inr rfl), fun _ => ⟨by rw [he], ?_, ?_⟩⟩
      · intro proof2 hp2
        rw [hf] at hp2
        exact Option.noConfusion hp2
      · intro _
        rw [he]

/-- C4 witness: the valid token "abc123" with no matching proof file on
disk is answered 404. -/
theorem acme_valid_token_behavior_witness :
    valid_token "abc123" = true ∧
    (acme "abc123" (fun _ => none)).1 = not_found :=
  ⟨by decide,
    ((acme_valid_token_behavior "abc123" (fun _ => none)).2 (by decide)).2.2
      rfl⟩

/-- C1: the bootstrap trace of run is always a prefix of the canonical
ordered sequence; privilege drop completes only after setup is done and
the socket is bound; serving is reached only after the privilege drop
succeeded; and the failure of any step prevents serving. -/
theorem run_ordering (env : DaemonEnv) :
    run env <+: bootSequence ∧
    (DaemonEvent.privsDropped ∈ run env →
      env.setupOk = true ∧ env.bindOk = true ∧
      DaemonEvent.setupDone ∈ run env ∧ DaemonEvent.socketBound ∈ run env) ∧
    (DaemonEvent.serving ∈ run env →
      env.dropOk = true ∧ DaemonEvent.privsDropped ∈ run env) ∧
    ((env.setupOk = false ∨ env.chdirOk = false ∨ env.bindOk = false ∨
        env.dropOk = false) → DaemonEvent.serving ∉ run env) := by
  obtain ⟨s, c, b, d⟩ := env
  cases s <;> cases c <;> cases b <;> cases d <;> decide

/-- C1 witness: in the all-steps-succeed environment the daemon serves,
and the theorem yields that the privilege drop completed first. -/
theorem run_ordering_witness :
    DaemonEvent.serving ∈ run ⟨true, true, true, true⟩ ∧
    DaemonEvent.privsDropped ∈ run ⟨true, true, true, true⟩ :=
  ⟨by decide, ((run_ordering ⟨true, true, true, true⟩).2.2.1 (by decide)).2⟩

/-- On any successful load the Config's acme_email field is copied from
the invocation, independently of the main file's acme section. -/
theorem load_ok_acme_email (args : Args) (env : LoadEnv) (cfg : Config)
    (hl : load args env = Except.ok cfg) :
    cfg.acme_email = args.acme_email := by
  unfold load at hl
  cases hm : env.mainParse with
  | error msg => rw [hm] at hl; exact Except.noConfusion hl
  | ok c0 =>
    rw [hm] at hl
    cases hf : load_from_folder env.dirList env.certParse with
    | error msg =>
      simp only [hf] at hl
      exact Except.noConfusion hl
    | ok files =>
      simp only [hf, Except.ok.injEq] at hl
      rw [← hl]

/-- C6: whenever the invocation supplies an email override, the loaded
Config's acme_email equals that override, whatever the main file says. -/
theorem load_email_override_wins (args : Args) (env : LoadEnv) (e : String)
    (cfg : Config) (he : args.acme_email = some e)
    (hl : load args env = Except.ok cfg) :
    cfg.acme_email = some e :=
  (load_ok_acme_email args env cfg hl).trans he

/-- C6 witness: with the override "cli@example.org" and a file value
"file@example.org" present, the loaded config carries the override. -/
theorem load_email_override_wins_witness :
    argsW.acme_email = some "cli@example.org" ∧
    load argsW envW = Except.ok cfgW ∧
    cfgW.acme_email = some "cli@example.org" :=
  ⟨rfl, rfl, load_email_override_wins argsW envW "cli@example.org" cfgW rfl rfl⟩

/-- C7: on every successful load the Config's acme_email is exactly the
invocation's override; in particular with no override it is none even when
the file's acme section supplies a value. -/
theorem load_email_from_invocation (args : Args) (env : LoadEnv)
    (cfg : Config) (hl : load args env = Except.ok cfg) :
    cfg.acme_email = args.acme_email :=
  load_ok_acme_email args env cfg hl

/-- C7 witness: with no override and the file supplying
"file@example.org", the loaded config's acme_email is none. -/
theorem load_email_from_invocation_witness :
    fileW.acme.acme_email = some "file@example.org" ∧
    load argsN envW = Except.ok cfgN ∧
    cfgN.acme_email = none :=
  ⟨rfl, rfl,
    (load_email_from_invocation argsN envW cfgN rfl).trans rfl⟩

/-- C8: the empty filter keeps every certificate in Config order; a
non-empty filter keeps exactly the certificates whose name is a member of
the filter, in Config order; the result is always a sublist of the
certificate sequence and every kept certificate's name matches the
filter. -/
theorem filter_certs_behavior (c : Config) (filter : List String) :
    (filter = [] → filter_certs c filter = c.certs) ∧
    (filter ≠ [] →
      filter_certs c filter =
        c.certs.filter (fun cert => filter.contains cert.name)) ∧
    List.Sublist (filter_certs c filter) c.certs ∧
    (∀ cert, cert ∈ filter_certs c filter →
      cert ∈ c.certs ∧ (filter = [] ∨ cert.name ∈ filter)) := by
  refine ⟨?_, ?_, ?_, ?_⟩
  · intro h
    subst h
    simp [filter_certs]
  · intro h
    cases filter with
    | nil => exact absurd rfl h
    | cons a l => simp [filter_certs]
  · exact List.filter_sublist c.certs
  · intro cert hmem
    unfold filter_certs at hmem
    rw [List.mem_filter] at hmem
    refine ⟨hmem.1, ?_⟩
    cases filter with
    | nil => exact Or.inl rfl
    | cons a l =>
      refine Or.inr ?_
      have h2 := hmem.2
      simp only [List.isEmpty_cons, Bool.false_or] at h2
      exact List.mem_of_elem_eq_true h2

/-- C8 witness: on a config with certificates a, b, a the empty filter
returns all three in order and the filter containing only "a" returns the
two certificates named "a" in order, while a name matching nothing yields
no entry. -/
theorem filter_certs_behavior_witness :
    filter_certs cfgDup [] = cfgDup.certs ∧
    filter_certs cfgDup ["a"] =
      cfgDup.certs.filter (fun cert => List.contains ["a"] cert.name) ∧
    filter_certs cfgDup ["nope"] =
      cfgDup.certs.filter (fun cert => List.contains ["nope"] cert.name) :=
  ⟨(filter_certs_behavior cfgDup []).1 rfl,
    (filter_certs_behavior cfgDup ["a"]).2.1 (by decide),
    (filter_certs_behavior cfgDup ["nope"]).2.1 (by decide)⟩

/-- Entries without the conf extension do not affect the folder loader:
it computes the same result on the matching entries alone. -/
theorem load_certs_filter (parse : String → Except String CertConfigFile)
    (entries : List String) :
    load_certs parse entries =
      load_certs parse
        (entries.filter (fun p => decide (extension p = some "conf"))) := by
  induction entries with
  | nil => rfl
  | cons p rest ih =>
    by_cases hext : extension p = some "conf"
    · rw [List.filter_cons_of_pos (by simpa using hext)]
      simp only [load_certs, if_pos hext]
      rw [ih]
    · rw [List.filter_cons_of_neg (by simpa using hext)]
      simp only [load_certs, if_neg hext]
      exact ih

/-- When every matching entry parses, the folder loader succeeds. -/
theorem load_certs_ok_of_parses
    (parse : String → Except String CertConfigFile)
    (entries : List String)
    (h : ∀ p ∈ entries, extension p = some "conf" →
      ∃ c, parse p = Except.ok c) :
    ∃ cs, load_certs parse entries = Except.ok cs := by
  induction entries with
  | nil => exact ⟨[], rfl⟩
  | cons p rest ih =>
    obtain ⟨cs, hcs⟩ :=
      ih (fun q hq hqe => h q (List.mem_cons_of_mem p hq) hqe)
    by_cases hext : extension p = some "conf"
    · obtain ⟨c, hc⟩ := h p (List.mem_cons_self p rest) hext
      exact ⟨c :: cs, by simp only [load_certs, if_pos hext, hc, hcs]⟩
    · exact ⟨cs, by simp only [load_certs, if_neg hext]; exact hcs⟩

/-- The first matching entry that fails to parse aborts the folder loader
with an error naming that entry. -/
theorem load_certs_first_error
    (parse : String → Except String CertConfigFile)
    (pre : List String) (p : String) (post : List String)
    (hext : extension p = some "conf")
    (hpre : ∀ q ∈ pre, extension q = some "conf" →
      ∃ c, parse q = Except.ok c)
    (hfail : ∃ e, parse p = Except.error e) :
    load_certs parse (pre ++ p :: post) =
      Except.error ("Failed to load config file " ++ p) := by
  induction pre with
  | nil =>
    obtain ⟨e, he⟩ := hfail
    simp only [List.nil_append, load_certs, if_pos hext, he]
  | cons q pre ih =>
    by_cases hqext : extension q = some "conf"
    · obtain ⟨c, hc⟩ := hpre q (List.mem_cons_self q pre) hqext
      have hrest := ih (fun r hr hre => hpre r (List.mem_cons_of_mem q hr) hre)
      simp only [List.cons_append, load_certs, if_pos hqext, hc,
        List.append_eq, hrest]
    · have hrest := ih (fun r hr hre => hpre r (List.mem_cons_of_mem q hr) hre)
      simp only [List.cons_append, load_certs, if_neg hqext]
      exact hrest

/-- A folder-loader failure aborts load with the same error, so no
partial Config is produced. -/
theorem load_error_of_folder_error (args : Args) (env : LoadEnv)
    (c0 : ConfigFile) (e : String)
    (hm : env.mainParse = Except.ok c0)
    (hf : load_from_folder env.dirList env.certParse = Except.error e) :
    load args env = Except.error e := by
  unfold load
  rw [hm]
  simp only [hf]

/-- C9: the directory scan silently skips entries whose extension is not
"conf"; if every matching entry parses, the load of the folder succeeds;
the first matching entry whose parse fails aborts the folder load with an
error naming that file; and such a failure aborts the whole load, so no
partial Config is produced. -/
theorem load_from_folder_scan (parse : String → Except String CertConfigFile)
    (entries : List String) :
    (load_from_folder (Except.ok entries) parse =
      load_from_folder
        (Except.ok
          (entries.filter (fun p => decide (extension p = some "conf"))))
        parse) ∧
    ((∀ p ∈ entries, extension p = some "conf" →
        ∃ c, parse p = Except.ok c) →
      ∃ cs, load_from_folder (Except.ok entries) parse = Except.ok cs) ∧
    (∀ pre p post, entries = pre ++ p :: post →
      extension p = some "conf" →
      (∀ q ∈ pre, extension q = some "conf" → ∃ c, parse q = Except.ok c) →
      (∃ e, parse p = Except.error e) →
      load_from_folder (Except.ok entries) parse =
        Except.error ("Failed to load config file " ++ p)) ∧
    (∀ args env c0 e, env.mainParse = Except.ok c0 →
      load_from_folder env.dirList env.certParse = Except.error e →
      load args env = Except.error e) := by
  refine ⟨load_certs_filter parse entries,
    load_certs_ok_of_parses parse entries, ?_, ?_⟩
  · intro pre p post heq hext hpre hfail
    rw [heq]
    exact load_certs_first_error parse pre p post hext hpre hfail
  · intro args env c0 e hm hf
    exact load_error_of_folder_error args env c0 e hm hf

/-- C9 witness: scanning a directory with a good conf file, a
non-matching text file and a failing conf file aborts naming the failing
file. -/
theorem load_from_folder_scan_witness :
    load_from_folder (Except.ok ["a.conf", "notes.txt", "bad.conf"]) parseW =
      Except.error ("Failed to load config file " ++ "bad.conf") :=
  (load_from_folder_scan parseW ["a.conf", "notes.txt", "bad.conf"]).2.2.1
    ["a.conf", "notes.txt"] "bad.conf" [] rfl (by decide)
    (fun q hq _ => ⟨certW, by fin_cases hq <;> rfl⟩)
    ⟨"syntax error", rfl⟩

/-- An existing directory is passed through the creation step untouched,
with no operation issued. -/
theorem mkdirStep_of_present (env : SetupEnv) (s0 : DirState)
    (h : s0.present = true) : mkdirStep env s0 = (s0, []) := by
  simp [mkdirStep, h]

/-- A missing directory is created with mode 0750 and the identity of the
running process, with exactly one mkdir operation issued. -/
theorem mkdirStep_of_absent (env : SetupEnv) (s0 : DirState)
    (h : s0.present = false) :
    mkdirStep env s0 =
      (⟨true, ⟨0o750, env.procUid, env.procGid⟩⟩, [FsOp.mkdir 0o750]) := by
  simp [mkdirStep, h, applyOp]

/-- The permission step keyed on a state's own metadata: it preserves
presence and ownership, leaves the mode at 0750, and issues a chmod
operation exactly when the current mode differs from 0750. -/
theorem chmodStep_props (env : SetupEnv) (s : DirState) :
    (chmodStep env s.meta s).1.present = s.present ∧
    (chmodStep env s.meta s).1.meta.mode = 0o750 ∧
    (chmodStep env s.meta s).1.meta.uid = s.meta.uid ∧
    (chmodStep env s.meta s).1.meta.gid = s.meta.gid ∧
    ((chmodStep env s.meta s).2 = [] ∧ s.meta.mode = 0o750 ∨
      (chmodStep env s.meta s).2 = [FsOp.chmod 0o750] ∧
        s.meta.mode ≠ 0o750) := by
  by_cases h : s.meta.mode = 0o750 <;>
    simp [chmodStep, ensure_chmod, h, applyOp]

/-- Characterization of a successful user-ownership step keyed on
metadata md, for a state whose owner agrees with md. -/
theorem setupChown_ok (env : SetupEnv) (md : DirMeta) (s t : DirState)
    (ops : List FsOp) (hu : s.meta.uid = md.uid)
    (h : setupChown env md s = Except.ok (t, ops)) :
    t.present = s.present ∧ t.meta.mode = s.meta.mode ∧
    t.meta.gid = s.meta.gid ∧
    (∀ n, env.userArg = some n →
      ∃ uid, env.resolveUser n = some uid ∧ t.meta.uid = uid) ∧
    (env.userArg = none → t = s) ∧
    (ops = [] ∨ ∃ uid, ops = [FsOp.chown uid] ∧ md.uid ≠ uid) := by
  cases hua : env.userArg with
  | none =>
    simp only [setupChown, hua, Except.ok.injEq, Prod.mk.injEq] at h
    obtain ⟨rfl, rfl⟩ := h
    exact ⟨rfl, rfl, rfl, fun n hn => Option.noConfusion hn,
      fun _ => rfl, Or.inl rfl⟩
  | some n =>
    cases hr : env.resolveUser n with
    | none =>
      simp only [setupChown, hua, hr] at h
      exact Except.noConfusion h
    | some uid =>
      by_cases he : md.uid = uid
      · simp only [setupChown, hua, hr, ensure_chown, if_pos he,
          Except.ok.injEq, Prod.mk.injEq] at h
        obtain ⟨rfl, rfl⟩ := h
        refine ⟨rfl, rfl, rfl, ?_, ?_, Or.inl rfl⟩
        · intro n2 hn2
          injection hn2 with hne
          subst hne
          exact ⟨uid, hr, hu.trans he⟩
        · intro hn
          exact Option.noConfusion hn
      · simp only [setupChown, hua, hr, ensure_chown, if_neg he,
          Except.ok.injEq, Prod.mk.injEq] at h
        obtain ⟨rfl, rfl⟩ := h
        refine ⟨rfl, rfl, rfl, ?_, ?_, Or.inr ⟨uid, rfl, he⟩⟩
        · intro n2 hn2
          injection hn2 with hne
          subst hne
          exact ⟨uid, hr, rfl⟩
        · intro hn
          exact Option.noConfusion hn

/-- Characterization of a successful group-ownership step keyed on
metadata md, for a state whose group agrees with md. -/
theorem setupChgrp_ok (env : SetupEnv) (md : DirMeta) (s t : DirState)
    (ops : List FsOp) (hg : s.meta.gid = md.gid)
    (h : setupChgrp env md s = Except.ok (t, ops)) :
    t.present = s.present ∧ t.meta.mode = s.meta.mode ∧
    t.meta.uid = s.meta.uid ∧
    (∀ n, env.groupCfg = some n →
      ∃ gid, env.resolveGroup n = some gid ∧ t.meta.gid = gid) ∧
    (env.groupCfg = none → t = s) ∧
    (ops = [] ∨ ∃ gid, ops = [FsOp.chgrp gid] ∧ md.gid ≠ gid) := by
  cases hga : env.groupCfg with
  | none =>
    simp only [setupChgrp, hga, Except.ok.injEq, Prod.mk.injEq] at h
    obtain ⟨rfl, rfl⟩ := h
    exact ⟨rfl, rfl, rfl, fun n hn => Option.noConfusion hn,
      fun _ => rfl, Or.inl rfl⟩
  | some n =>
    cases hr : env.resolveGroup n with
    | none =>
      simp only [setupChgrp, hga, hr] at h
      exact Except.noConfusion h
    | some gid =>
      by_cases he : md.gid = gid
      · simp only [setupChgrp, hga, hr, ensure_chgrp, if_pos he,
          Except.ok.injEq, Prod.mk.injEq] at h
        obtain ⟨rfl, rfl⟩ := h
        refine ⟨rfl, rfl, rfl, ?_, ?_, Or.inl rfl⟩
        · intro n2 hn2
          injection hn2 with hne
          subst hne
          exact ⟨gid, hr, hg.trans he⟩
        · intro hn
          exact Option.noConfusion hn
      · simp only [setupChgrp, hga, hr, ensure_chgrp, if_neg he,
          Except.ok.injEq, Prod.mk.injEq] at h
        obtain ⟨rfl, rfl⟩ := h
        refine ⟨rfl, rfl, rfl, ?_, ?_, Or.inr ⟨gid, rfl, he⟩⟩
        · intro n2 hn2
          injection hn2 with hne
          subst hne
          exact ⟨gid, hr, rfl⟩
        · intro hn
          exact Option.noConfusion hn

/-- A converged directory state is a fixed point of setup: the run
succeeds, changes nothing and issues no operation. -/
theorem setup_of_converged (env : SetupEnv) (t : DirState)
    (h : converged env t) : setup env t = Except.ok (t, []) := by
  obtain ⟨hp, hm, hu, hg⟩ := h
  have hmk : mkdirStep env t = (t, []) := mkdirStep_of_present env t hp
  have hch : chmodStep env t.meta t = (t, []) := by
    simp [chmodStep, ensure_chmod, hm]
  cases hua : env.userArg with
  | none =>
    cases hga : env.groupCfg with
    | none =>
      simp [setup, hmk, hch, setupChown, setupChgrp, hua, hga]
    | some n =>
      obtain ⟨gid, hr, he⟩ := hg n hga
      simp [setup, hmk, hch, setupChown, setupChgrp, ensure_chgrp, hua,
        hga, hr, he]
  | some n =>
    obtain ⟨uid, hr, he⟩ := hu n hua
    cases hga : env.groupCfg with
    | none =>
      simp [setup, hmk, hch, setupChown, setupChgrp, ensure_chown, hua,
        hga, hr, he]
    | some n2 =>
      obtain ⟨gid, hr2, he2⟩ := hg n2 hga
      simp [setup, hmk, hch, setupChown, setupChgrp, ensure_chown,
        ensure_chgrp, hua, hga, hr, hr2, he, he2]

/-- Dissection of a successful setup run: the final state is converged;
an existing directory causes no mkdir while a missing one is created with
mode 0750; and for an existing directory every chmod, chown or chgrp in
the issued operations reflects a metadata field that differed from its
target. -/
theorem setup_ok_props (env : SetupEnv) (s0 t : DirState) (ops : List FsOp)
    (h : setup env s0 = Except.ok (t, ops)) :
    converged env t ∧
    (s0.present = true → ∀ m, FsOp.mkdir m ∉ ops) ∧
    (s0.present = false → FsOp.mkdir 0o750 ∈ ops) ∧
    (s0.present = true →
      (∀ m, FsOp.chmod m ∈ ops → s0.meta.mode ≠ m) ∧
      (∀ u, FsOp.chown u ∈ ops → s0.meta.uid ≠ u) ∧
      (∀ g, FsOp.chgrp g ∈ ops → s0.meta.gid ≠ g)) := by
  simp only [setup] at h
  split at h
  · exact Except.noConfusion h
  · rename_i s3 ops3 heq
    split at h
    · exact Except.noConfusion h
    · rename_i s4 ops4 heq2
      rw [Except.ok.injEq, Prod.mk.injEq] at h
      obtain ⟨rfl, rfl⟩ := h
      by_cases hp : s0.present = true
      · have hmk := mkdirStep_of_present env s0 hp
        simp only [hmk, List.nil_append] at heq heq2 ⊢
        obtain ⟨hcpres, hcmode, hcuid, hcgid, hcops⟩ := chmodStep_props env s0
        obtain ⟨h3pres, h3mode, h3gid, h3user, -, h3ops⟩ :=
          setupChown_ok env s0.meta (chmodStep env s0.meta s0).1 s3 ops3
            hcuid heq
        obtain ⟨h4pres, h4mode, h4uid, h4grp, -, h4ops⟩ :=
          setupChgrp_ok env s0.meta s3 s4 ops4 (h3gid.trans hcgid) heq2
        refine ⟨⟨h4pres.trans (h3pres.trans (hcpres.trans hp)),
          h4mode.trans (h3mode.trans hcmode), ?_, h4grp⟩, ?_, ?_, ?_⟩
        · intro n hn
          obtain ⟨uid, hr, hq⟩ := h3user n hn
          exact ⟨uid, hr, h4uid.trans hq⟩
        · intro _ m hmem
          rcases List.mem_append.mp hmem with hmem2 | h4m
          · rcases List.mem_append.mp hmem2 with hcm | h3m
            · rcases hcops with ⟨hc, -⟩ | ⟨hc, -⟩
              · rw [hc] at hcm; exact absurd hcm (List.not_mem_nil _)
              · rw [hc, List.mem_singleton] at hcm
                exact FsOp.noConfusion hcm
            · rcases h3ops with h3o | ⟨uid, h3o, -⟩
              · rw [h3o] at h3m; exact absurd h3m (List.not_mem_nil _)
              · rw [h3o, List.mem_singleton] at h3m
                exact FsOp.noConfusion h3m
          · rcases h4ops with h4o | ⟨gid, h4o, -⟩
            · rw [h4o] at h4m; exact absurd h4m (List.not_mem_nil _)
            · rw [h4o, List.mem_singleton] at h4m
              exact FsOp.noConfusion h4m
        · intro hf
          rw [hp] at hf
          exact Bool.noConfusion hf
        · refine fun _ => ⟨?_, ?_, ?_⟩
          · intro m hmem
            rcases List.mem_append.mp hmem with hmem2 | h4m
            · rcases List.mem_append.mp hmem2 with hcm | h3m
              · rcases hcops with ⟨hc, -⟩ | ⟨hc, hcne⟩
                · rw [hc] at hcm; exact absurd hcm (List.not_mem_nil _)
                · rw [hc, List.mem_singleton] at hcm
                  injection hcm with hme
                  subst hme
                  exact hcne
              · rcases h3ops with h3o | ⟨uid, h3o, -⟩
                · rw [h3o] at h3m; exact absurd h3m (List.not_mem_nil _)
                · rw [h3o, List.mem_singleton] at h3m
                  exact FsOp.noConfusion h3m
            · rcases h4ops with h4o | ⟨gid, h4o, -⟩
              · rw [h4o] at h4m; exact absurd h4m (List.not_mem_nil _)
              · rw [h4o, List.mem_singleton] at h4m
                exact FsOp.noConfusion h4m
          · intro u hmem
            rcases List.mem_append.mp hmem with hmem2 | h4m
            · rcases List.mem_append.mp hmem2 with hcm | h3m
              · rcases hcops with ⟨hc, -⟩ | ⟨hc, -⟩
                · rw [hc] at hcm; exact absurd hcm (List.not_mem_nil _)
                · rw [hc, List.mem_singleton] at hcm
                  exact FsOp.noConfusion hcm
              · rcases h3ops with h3o | ⟨uid, h3o, hne⟩
                · rw [h3o] at h3m; exact absurd h3m (List.not_mem_nil _)
                · rw [h3o, List.mem_singleton] at h3m
                  injection h3m with hue
                  subst hue
                  exact hne
            · rcases h4ops with h4o | ⟨gid, h4o, -⟩
              · rw [h4o] at h4m; exact absurd h4m (List.not_mem_nil _)
              · rw [h4o, List.mem_singleton] at h4m
                exact FsOp.noConfusion h4m
          · intro g hmem
            rcases List.mem_append.mp hmem with hmem2 | h4m
            · rcases List.mem_append.mp hmem2 with hcm | h3m
              · rcases hcops with ⟨hc, -⟩ | ⟨hc, -⟩
                · rw [hc] at hcm; exact absurd hcm (List.not_mem_nil _)
                · rw [hc, List.mem_singleton] at hcm
                  exact FsOp.noConfusion hcm
              · rcases h3ops with h3o | ⟨uid, h3o, -⟩
                · rw [h3o] at h3m; exact absurd h3m (List.not_mem_nil _)
                · rw [h3o, List.mem_singleton] at h3m
                  exact FsOp.noConfusion h3m
            · rcases h4ops with h4o | ⟨gid, h4o, hne⟩
              · rw [h4o] at h4m; exact absurd h4m (List.not_mem_nil _)
              · rw [h4o, List.mem_singleton] at h4m
                injection h4m with hge
                subst hge
                exact hne
      · rw [Bool.not_eq_true] at hp
        have hmk := mkdirStep_of_absent env s0 hp
        simp only [hmk] at heq heq2 ⊢
        obtain ⟨hcpres, hcmode, hcuid, hcgid, hcops⟩ :=
          chmodStep_props env ⟨true, ⟨0o750, env.procUid, env.procGid⟩⟩
        obtain ⟨h3pres, h3mode, h3gid, h3user, -, h3ops⟩ :=
          setupChown_ok env ⟨0o750, env.procUid, env.procGid⟩
            (chmodStep env ⟨0o750, env.procUid, env.procGid⟩
              ⟨true, ⟨0o750, env.procUid, env.procGid⟩⟩).1 s3 ops3 hcuid heq
        obtain ⟨h4pres, h4mode, h4uid, h4grp, -, h4ops⟩ :=
          setupChgrp_ok env ⟨0o750, env.procUid, env.procGid⟩ s3 s4 ops4
            (h3gid.trans hcgid) heq2
        refine ⟨⟨h4pres.trans (h3pres.trans hcpres),
          h4mode.trans (h3mode.trans hcmode), ?_, h4grp⟩, ?_, ?_, ?_⟩
        · intro n hn
          obtain ⟨uid, hr, hq⟩ := h3user n hn
          exact ⟨uid, hr, h4uid.trans hq⟩
        · intro ht
          rw [hp] at ht
          exact Bool.noConfusion ht
        · intro _
          simp [List.mem_append]
        · intro ht
          rw [hp] at ht
          exact Bool.noConfusion ht

/-- C10: a successful setup run converges the directory — so an
immediately repeated run with unchanged inputs succeeds with the same
final state and issues no operation at all — and the first run creates
the directory (with mode 0750) exactly when it was missing, never
recreating an existing one, while each chmod/chown/chgrp issued on an
existing directory reflects a metadata field that differed from its
target. -/
theorem setup_idempotent (env : SetupEnv) (s0 t : DirState)
    (ops : List FsOp) (h : setup env s0 = Except.ok (t, ops)) :
    setup env t = Except.ok (t, []) ∧
    (s0.present = true → ∀ m, FsOp.mkdir m ∉ ops) ∧
    (s0.present = false → FsOp.mkdir 0o750 ∈ ops) ∧
    (s0.present = true →
      (∀ m, FsOp.chmod m ∈ ops → s0.meta.mode ≠ m) ∧
      (∀ u, FsOp.chown u ∈ ops → s0.meta.uid ≠ u) ∧
      (∀ g, FsOp.chgrp g ∈ ops → s0.meta.gid ≠ g)) := by
  obtain ⟨hconv, h2, h3, h4⟩ := setup_ok_props env s0 t ops h
  exact ⟨setup_of_converged env t hconv, h2, h3, h4⟩

/-- C10 witness: starting from a missing directory, setup creates it and
chowns and chgrps it, and a second run on the resulting state is a
successful no-op. -/
theorem setup_idempotent_witness :
    setup envS ⟨false, ⟨0, 0, 0⟩⟩ =
      Except.ok (⟨true, ⟨0o750, 1000, 1000⟩⟩,
        [FsOp.mkdir 0o750, FsOp.chown 1000, FsOp.chgrp 1000]) ∧
    setup envS ⟨true, ⟨0o750, 1000, 1000⟩⟩ =
      Except.ok (⟨true, ⟨0o750, 1000, 1000⟩⟩, []) :=
  ⟨rfl,
    (setup_idempotent envS ⟨false, ⟨0, 0, 0⟩⟩ ⟨true, ⟨0o750, 1000, 1000⟩⟩
      [FsOp.mkdir 0o750, FsOp.chown 1000, FsOp.chgrp 1000] rfl).1⟩

end AcmeRedirect
